import Mathlib

/-!
Shallow embedding of the `scert-feedback-tracker` bulk-import scripts
(`fast-import.py` and `production-import.py`) and proofs about them.

Conventions of the embedding:
* a CSV row is a `List String` (one string per field);
* Python `None` becomes `Option.none`;
* the database tables are lists of committed rows; an
  `INSERT ... ON CONFLICT (...) DO NOTHING` over a chunk is a left fold that
  appends a record only when no already-present record carries the same
  conflict key (this matches row-by-row processing of `executemany`);
* exceptions raised by a bulk insert are driven by an explicit oracle
  `Call → Bool` (`true` = this `executemany` raises); `commit` makes the
  inserts of the open transaction permanent, `rollback` discards them;
* the process exit status is recorded in `RunResult.exitCode`.
-/

/-- A raw CSV row: the list of its fields. -/
abbrev Row := List String

/-- `teachers` table row (fields in the column order of the INSERT statements). -/
structure Teacher where
  teacher_id : Option String
  teacher_name : String
  mobile : String
  district : String
  service_type : String
  training_group : String
deriving DecidableEq, Repr

/-- `batches` table row. -/
structure Batch where
  batch_name : String
  district : String
  coordinator_name : String
  service_type : String
  training_group : String
deriving DecidableEq, Repr

/-- `batch_teachers` table row. -/
structure Link where
  batch_name : String
  teacher_mobile : String
  teacher_name : String
  district : String
deriving DecidableEq, Repr

/-- Keep only the digit characters of a string.  This models both
`re.sub(r'[^0-9]', '', phone_number)` (fast-import.py line 34) and
`''.join(filter(str.isdigit, phone))` (production-import.py line 14). -/
def stripNonDigits (s : String) : String :=
  String.mk (s.data.filter Char.isDigit)

/-- `clean_phone_number` of production-import.py lines 8-19:
reject the empty string (falsy) and the literal `"null"`; strip non-digits;
return the first 10 digits when at least 10 remain, otherwise reject. -/
def clean_phone_number (phone : String) : Option String :=
  if phone = "" ∨ phone = "null" then none
  else
    let digits := stripNonDigits phone
    if 10 ≤ digits.length then some (digits.take 10) else none

/-- The inline phone cleaning of fast-import.py lines 34-37:
`mobile = re.sub(...)`; reject when `len(mobile) < 10 or phone_number == 'null'`;
otherwise `mobile[:10]`. -/
def fastMobile (phone_number : String) : Option String :=
  let mobile := stripNonDigits phone_number
  if mobile.length < 10 ∨ phone_number = "null" then none
  else some (mobile.take 10)

/-- `None if teacher_id == 'null' or not teacher_id else teacher_id`
(both scripts). -/
def cleanTeacherId (teacher_id : String) : Option String :=
  if teacher_id = "null" ∨ teacher_id = "" then none else some teacher_id

/-- Python `x or 'Primary'`: the empty (falsy) string defaults to `"Primary"`. -/
def orPrimary (s : String) : String :=
  if s = "" then "Primary" else s

/-- The seven positional fields of a well-formed row, in source order. -/
structure Row7 where
  district : String
  batch_name : String
  service_type : String
  training_group : String
  teacher_id : String
  teacher_name : String
  phone_number : String
deriving DecidableEq, Repr

/-- Python truthiness test `batch_name and batch_name != 'null'`. -/
def hasBatchName (r : Row7) : Bool :=
  !(r.batch_name == "") && !(r.batch_name == "null")

/-- Teacher record built from a validated row (both scripts, identical tuples). -/
def mkTeacher (r : Row7) (mobile : String) : Teacher :=
  { teacher_id := cleanTeacherId r.teacher_id
    teacher_name := r.teacher_name
    mobile := mobile
    district := r.district
    service_type := orPrimary r.service_type
    training_group := orPrimary r.training_group }

/-- Batch record built from the first row seen with its batch name
(both scripts; the coordinator name is the fixed `'Production Import'`). -/
def mkBatch (r : Row7) : Batch :=
  { batch_name := r.batch_name
    district := r.district
    coordinator_name := "Production Import"
    service_type := orPrimary r.service_type
    training_group := orPrimary r.training_group }

/-- Batch-teacher relationship record (both scripts). -/
def mkLink (r : Row7) (mobile : String) : Link :=
  { batch_name := r.batch_name
    teacher_mobile := mobile
    teacher_name := r.teacher_name
    district := r.district }

/-- Result of feeding one raw row through the per-row checks:
`skip` = the row is silently skipped (`continue`), `err` = tuple unpacking
raised `ValueError` (more than 7 fields), `ok` = the row was validated and
its cleaned mobile extracted. -/
inductive Decoded where
  | skip : Decoded
  | err : Decoded
  | ok : Row7 → String → Decoded
deriving DecidableEq, Repr

/-- Per-row decoding shared by both scripts:
`if len(row) < 7: continue`, then the 7-way unpacking (which raises on more
than 7 fields), then phone cleaning (`clean_phone_number` here; fast-import's
inline variant is proved equal in `fastMobile_eq_clean_phone_number`). -/
def decodeRow (row : Row) : Decoded :=
  if row.length < 7 then .skip
  else
    match row with
    | [district, batch_name, service_type, training_group,
       teacher_id, teacher_name, phone_number] =>
      match clean_phone_number phone_number with
      | none => .skip
      | some mobile =>
        .ok { district := district, batch_name := batch_name,
              service_type := service_type, training_group := training_group,
              teacher_id := teacher_id, teacher_name := teacher_name,
              phone_number := phone_number } mobile
    | _ => .err

/-- A row that survives both the field-count check and phone validation. -/
def isValidRow (row : Row) : Bool :=
  match decodeRow row with
  | .ok _ _ => true
  | _ => false

/-- Number of valid rows of an input. -/
def countValid (rows : List Row) : Nat :=
  rows.countP isValidRow

/-- In-memory accumulation state shared by both scripts: the set of batch
names already queued (`unique_batches` / `batch_data` keys) and the three
candidate lists in queue order.  In production-import.py these lists are
exactly `batch_data` (values in insertion order), `teacher_records` and
`batch_teacher_records`; in fast-import.py the same candidates flow through
the three buffer lists (`FastState` below tracks the buffers and flushes). -/
structure AccState where
  seen : List String
  teachers : List Teacher
  batches : List Batch
  links : List Link
deriving DecidableEq, Repr

/-- Empty accumulation state. -/
def initAcc : AccState := { seen := [], teachers := [], batches := [], links := [] }

/-- Queue the candidates of one validated row (production-import.py lines
63-88; identical in fast-import.py lines 42-70): a Batch candidate on first
sight of a non-null batch name, always a Teacher candidate, and a Link
candidate whenever the batch name is non-null. -/
def stepAcc (st : AccState) (r : Row7) (m : String) : AccState :=
  let st1 :=
    if hasBatchName r && !(st.seen.contains r.batch_name) then
      { st with seen := st.seen ++ [r.batch_name],
                batches := st.batches ++ [mkBatch r] }
    else st
  let st2 := { st1 with teachers := st1.teachers ++ [mkTeacher r m] }
  if hasBatchName r then { st2 with links := st2.links ++ [mkLink r m] }
  else st2

/-- Process one raw row against the accumulation state (loop body of
production-import.py lines 49-88).  `none` models the uncaught `ValueError`
of unpacking a row with more than 7 fields. -/
def accRow (st : AccState) (row : Row) : Option AccState :=
  match decodeRow row with
  | .err => none
  | .skip => some st
  | .ok r m => some (stepAcc st r m)

/-- Process a whole row stream; a `ValueError` on any row aborts the loop. -/
def accRows (st : AccState) : List Row → Option AccState
  | [] => some st
  | row :: rest =>
    match accRow st row with
    | none => none
    | some st' => accRows st' rest

/-- The database: the three tables, as lists of committed rows. -/
structure Store where
  teachers : List Teacher
  batches : List Batch
  batch_teachers : List Link
deriving DecidableEq, Repr

/-- The empty database. -/
def emptyStore : Store := { teachers := [], batches := [], batch_teachers := [] }

/-- One `executemany` bulk insert: a chunk of records for one table. -/
inductive Call where
  | teachers : List Teacher → Call
  | batches : List Batch → Call
  | links : List Link → Call
deriving DecidableEq, Repr

/-- Insert one record unless a present record conflicts with it
(`ON CONFLICT (...) DO NOTHING`). -/
def insertOn (conflict : α → α → Bool) (acc : List α) (x : α) : List α :=
  if acc.any (conflict x) then acc else acc ++ [x]

/-- Bulk insert of a chunk, record by record, skipping conflicts. -/
def bulkInsert (conflict : α → α → Bool) (acc : List α) (chunk : List α) : List α :=
  chunk.foldl (insertOn conflict) acc

/-- `ON CONFLICT (mobile)` for `teachers`. -/
def teacherConflict (a b : Teacher) : Bool := a.mobile == b.mobile

/-- `ON CONFLICT (batch_name)` for `batches`. -/
def batchConflict (a b : Batch) : Bool := a.batch_name == b.batch_name

/-- `ON CONFLICT (batch_name, teacher_mobile)` for `batch_teachers`. -/
def linkConflict (a b : Link) : Bool :=
  a.batch_name == b.batch_name && a.teacher_mobile == b.teacher_mobile

/-- Apply one bulk insert to the database. -/
def applyCall (s : Store) : Call → Store
  | .teachers ch => { s with teachers := bulkInsert teacherConflict s.teachers ch }
  | .batches ch => { s with batches := bulkInsert batchConflict s.batches ch }
  | .links ch => { s with batch_teachers := bulkInsert linkConflict s.batch_teachers ch }

/-- The bulk inserts actually attempted by a sequence of `executemany` calls
when the first one the oracle fails raises and aborts the sequence. -/
def attempted (oracle : Call → Bool) : List Call → List Call
  | [] => []
  | c :: cs => if oracle c then [c] else c :: attempted oracle cs

/-- `true` when no call of the sequence raises. -/
def allOk (oracle : Call → Bool) (cs : List Call) : Bool :=
  cs.all fun c => !(oracle c)

/-- Successive slices of `n` records, as produced by
`for i in range(0, len(l), n): l[i:i+n]`, via a structural fuel
(`l.length` iterations always suffice for `n ≥ 1`). -/
def chunksGo (n : Nat) : Nat → List α → List (List α)
  | _, [] => []
  | 0, _ :: _ => []
  | fuel + 1, x :: xs => ((x :: xs).take n) :: chunksGo n fuel ((x :: xs).drop n)

/-- Slice a list into chunks of `n`. -/
def chunks (n : Nat) (l : List α) : List (List α) := chunksGo n l.length l

/-- Outcome of one script run: final database, bulk inserts attempted,
and process exit status. -/
structure RunResult where
  store : Store
  calls : List Call
  exitCode : Nat
deriving DecidableEq, Repr

/-- The bulk-insert sequence of production-import.py lines 96-146: one
`executemany` with every batch (guarded by `if batch_values:`), then the
teacher records in slices of 1000, then the relationship records in slices
of 1000. -/
def prodCalls (acc : AccState) : List Call :=
  (if acc.batches.isEmpty then [] else [Call.batches acc.batches]) ++
  (chunks 1000 acc.teachers).map Call.teachers ++
  (chunks 1000 acc.links).map Call.links

/-- `import_production_data` (production-import.py lines 27-172).
`connectFails` models `psycopg2.connect` raising (line 32, outside the
`try`: the uncaught exception ends the interpreter with a non-zero status);
`readFails` models `open` raising (caught at line 166: rollback and
`sys.exit(1)`).  A `ValueError` while parsing, or any failing bulk insert,
is caught by the same handler: rollback of the single open transaction
(the store is unchanged, since the one `conn.commit()` at line 149 has not
run) and `sys.exit(1)`.  When every insert succeeds the transaction commits
and the process exits 0. -/
def import_production_data (connectFails readFails : Bool) (rows : List Row)
    (oracle : Call → Bool) (s : Store) : RunResult :=
  if connectFails then ⟨s, [], 1⟩
  else if readFails then ⟨s, [], 1⟩
  else
    match accRows initAcc rows with
    | none => ⟨s, [], 1⟩
    | some acc =>
      let cs := prodCalls acc
      if allOk oracle cs then ⟨cs.foldl applyCall s, cs, 0⟩
      else ⟨s, attempted oracle cs, 1⟩

/-- Streaming state of fast-import.py: the dedup set, the three buffer
lists, the database (committed chunks), and the trace of bulk inserts
attempted so far. -/
structure FastState where
  seen : List String
  teacher_batch : List Teacher
  batch_batch : List Batch
  link_batch : List Link
  store : Store
  calls : List Call
deriving DecidableEq, Repr

/-- Initial streaming state over a given database. -/
def initFast (s : Store) : FastState :=
  { seen := [], teacher_batch := [], batch_batch := [], link_batch := [],
    store := s, calls := [] }

/-- Mid-stream teacher flush (fast-import.py lines 75-88):
`if len(teacher_batch) >= batch_size` (1000) run the bulk insert and commit;
on an exception, roll the chunk back (the store is unchanged); in both cases
the buffer is cleared and the loop continues. -/
def flushTeachers (oracle : Call → Bool) (st : FastState) : FastState :=
  if 1000 ≤ st.teacher_batch.length then
    let c := Call.teachers st.teacher_batch
    { st with
      calls := st.calls ++ [c],
      store := if oracle c then st.store else applyCall st.store c,
      teacher_batch := [] }
  else st

/-- Mid-stream batch flush (fast-import.py lines 90-102), threshold 50. -/
def flushBatches (oracle : Call → Bool) (st : FastState) : FastState :=
  if 50 ≤ st.batch_batch.length then
    let c := Call.batches st.batch_batch
    { st with
      calls := st.calls ++ [c],
      store := if oracle c then st.store else applyCall st.store c,
      batch_batch := [] }
  else st

/-- Mid-stream relationship flush (fast-import.py lines 104-116),
threshold `batch_size` = 1000. -/
def flushLinks (oracle : Call → Bool) (st : FastState) : FastState :=
  if 1000 ≤ st.link_batch.length then
    let c := Call.links st.link_batch
    { st with
      calls := st.calls ++ [c],
      store := if oracle c then st.store else applyCall st.store c,
      link_batch := [] }
  else st

/-- Queue the candidates of one validated row into the fast-import buffers
(fast-import.py lines 42-70; same candidates as `stepAcc`). -/
def stepFast (st : FastState) (r : Row7) (m : String) : FastState :=
  let st1 :=
    if hasBatchName r && !(st.seen.contains r.batch_name) then
      { st with seen := st.seen ++ [r.batch_name],
                batch_batch := st.batch_batch ++ [mkBatch r] }
    else st
  let st2 := { st1 with teacher_batch := st1.teacher_batch ++ [mkTeacher r m] }
  if hasBatchName r then { st2 with link_batch := st2.link_batch ++ [mkLink r m] }
  else st2

/-- Loop body of fast-import.py lines 27-116: decode the row, queue the
candidates, then try the three flushes in source order.  `none` models the
`ValueError` of unpacking a row with more than 7 fields, which escapes to
the run-level handler. -/
def fastRow (oracle : Call → Bool) (st : FastState) (row : Row) : Option FastState :=
  match decodeRow row with
  | .err => none
  | .skip => some st
  | .ok r m =>
    some (flushLinks oracle (flushBatches oracle (flushTeachers oracle (stepFast st r m))))

/-- The whole streaming loop; the boolean is `false` when a `ValueError`
aborted it (the state at that point is kept: mid-stream commits are
permanent). -/
def fastRowsGo (oracle : Call → Bool) : FastState → List Row → FastState × Bool
  | st, [] => (st, true)
  | st, row :: rest =>
    match fastRow oracle st row with
    | none => (st, false)
    | some st' => fastRowsGo oracle st' rest

/-- The final flush of fast-import.py lines 118-140: one guarded
`executemany` per non-empty buffer, in source order, followed by a single
`conn.commit()` — these three inserts form one transaction. -/
def finalCalls (st : FastState) : List Call :=
  (if st.teacher_batch.isEmpty then [] else [Call.teachers st.teacher_batch]) ++
  (if st.batch_batch.isEmpty then [] else [Call.batches st.batch_batch]) ++
  (if st.link_batch.isEmpty then [] else [Call.links st.link_batch])

/-- What happens after the streaming loop of fast-import.py: if the loop
reached the end of the stream, run the final flush as one transaction — on
the first failing insert, the exception escapes to the handler at line 157,
where `conn.rollback()` undoes the whole open final transaction (chunks
committed mid-stream stay); otherwise the commit at line 140 makes it
permanent.  If the loop was aborted by a `ValueError`, the final flush
never runs.  In every case the handler swallows the exception and the
function returns normally, so the process exits 0. -/
def fastFinish (oracle : Call → Bool) (res : FastState × Bool) : RunResult :=
  if res.2 then
    if allOk oracle (finalCalls res.1) then
      ⟨(finalCalls res.1).foldl applyCall res.1.store,
       res.1.calls ++ finalCalls res.1, 0⟩
    else ⟨res.1.store, res.1.calls ++ attempted oracle (finalCalls res.1), 0⟩
  else ⟨res.1.store, res.1.calls, 0⟩

/-- `import_data` (fast-import.py lines 7-162).  `connectFails` models
`psycopg2.connect` raising at line 8, outside the `try`: the uncaught
exception ends the interpreter with a non-zero status.  Every exception
inside the `try` — failure to `open` the file (`readFails`), a `ValueError`
while parsing, or an error in the final flush — is caught at line 157 and
swallowed, so those paths exit 0 (see `fastFinish`). -/
def import_data (connectFails readFails : Bool) (rows : List Row)
    (oracle : Call → Bool) (s : Store) : RunResult :=
  if connectFails then ⟨s, [], 1⟩
  else if readFails then ⟨s, [], 0⟩
  else fastFinish oracle (fastRowsGo oracle (initFast s) rows)

/-- Sizes of the teacher chunks in a call trace, in order. -/
def teacherCallSizes (cs : List Call) : List Nat :=
  cs.filterMap fun c => match c with | .teachers ch => some ch.length | _ => none

/-- Sizes of the batch chunks in a call trace, in order. -/
def batchCallSizes (cs : List Call) : List Nat :=
  cs.filterMap fun c => match c with | .batches ch => some ch.length | _ => none

/-- Every record of the call has a conflicting record already in the store
(so the skip-on-conflict insert would add nothing). -/
def keyPresent (s : Store) : Call → Prop
  | .teachers ch => ∀ x ∈ ch, s.teachers.any (teacherConflict x) = true
  | .batches ch => ∀ x ∈ ch, s.batches.any (batchConflict x) = true
  | .links ch => ∀ x ∈ ch, s.batch_teachers.any (linkConflict x) = true

/-- The valid rows of the stream whose (non-null, non-empty) batch name is
`b`, paired with their cleaned mobiles, in stream order. -/
def batchOcc (b : String) (rows : List Row) : List (Row7 × String) :=
  rows.filterMap fun row =>
    match decodeRow row with
    | .ok r m => if hasBatchName r && (r.batch_name == b) then some (r, m) else none
    | _ => none

/-! ## Concrete inputs used by witnesses and counterexamples -/

/-- A streaming state with every buffer exactly at its flush threshold. -/
def c1wst : FastState :=
  { seen := [],
    teacher_batch := List.replicate 1000 ⟨none, "N", "9876543210", "D", "S", "G"⟩,
    batch_batch := List.replicate 50 ⟨"B", "D", "Production Import", "S", "G"⟩,
    link_batch := List.replicate 1000 ⟨"B", "9876543210", "N", "D"⟩,
    store := emptyStore, calls := [] }

/-- Three valid rows, the first two sharing batch name `"B1"`. -/
def c3rows : List Row :=
  [["D1", "B1", "S1", "G1", "T1", "Alice", "1111111111"],
   ["D2", "B1", "S2", "G2", "T2", "Bob", "2222222222"],
   ["D3", "B2", "S3", "G3", "T3", "Carol", "3333333333"]]

/-- The accumulation state after processing `c3rows`. -/
def c3acc : AccState :=
  { seen := ["B1", "B2"],
    teachers := [⟨some "T1", "Alice", "1111111111", "D1", "S1", "G1"⟩,
                 ⟨some "T2", "Bob", "2222222222", "D2", "S2", "G2"⟩,
                 ⟨some "T3", "Carol", "3333333333", "D3", "S3", "G3"⟩],
    batches := [⟨"B1", "D1", "Production Import", "S1", "G1"⟩,
                ⟨"B2", "D3", "Production Import", "S3", "G3"⟩],
    links := [⟨"B1", "1111111111", "Alice", "D1"⟩,
              ⟨"B1", "2222222222", "Bob", "D2"⟩,
              ⟨"B2", "3333333333", "Carol", "D3"⟩] }

/-- One valid row with a batch name. -/
def c5rows : List Row := [["D1", "B1", "S1", "G1", "T1", "Alice", "9876543210"]]

/-- The accumulation state after processing `c5rows`. -/
def c5acc : AccState :=
  { seen := ["B1"],
    teachers := [⟨some "T1", "Alice", "9876543210", "D1", "S1", "G1"⟩],
    batches := [⟨"B1", "D1", "Production Import", "S1", "G1"⟩],
    links := [⟨"B1", "9876543210", "Alice", "D1"⟩] }

/-- Replay every accumulated candidate against a store through the
skip-on-conflict bulk inserts: the net effect of an error-free run of
either import variant (chunking is associative: slicing the candidate list
does not change the fold). -/
def applyAcc (acc : AccState) (s : Store) : Store :=
  { teachers := bulkInsert teacherConflict s.teachers acc.teachers,
    batches := bulkInsert batchConflict s.batches acc.batches,
    batch_teachers := bulkInsert linkConflict s.batch_teachers acc.links }

/-- Relation tying a fast-import streaming state over base store `s` to the
plain accumulation state of the same processed prefix: the dedup sets
agree, and per table the accumulated candidates split into a committed
prefix — already bulk-inserted into the store — followed by the current
buffer. -/
def FastRel (s : Store) (st : FastState) (ast : AccState) : Prop :=
  st.seen = ast.seen ∧
  (∃ ct, ast.teachers = ct ++ st.teacher_batch ∧
    st.store.teachers = bulkInsert teacherConflict s.teachers ct) ∧
  (∃ cb, ast.batches = cb ++ st.batch_batch ∧
    st.store.batches = bulkInsert batchConflict s.batches cb) ∧
  (∃ cl, ast.links = cl ++ st.link_batch ∧
    st.store.batch_teachers = bulkInsert linkConflict s.batch_teachers cl)

/-- 51 distinct batch names (distinct lengths of a repeated character). -/
def c7name (i : Nat) : String := String.mk (List.replicate (i + 1) 'b')

/-- 51 valid rows with 51 distinct batch names. -/
def c7rows51 : List Row :=
  (List.range 51).map fun i => ["D", c7name i, "S", "G", "T", "N", "9876543210"]

/-- A valid teacher row without a batch name. -/
def c7row : Row := ["D0", "", "S0", "G0", "T0", "N0", "9876543210"]

/-- 1500 valid teacher rows. -/
def c7rows1500 : List Row := List.replicate 1500 c7row

/-- The decoded `Row7` of the witness row for C8. -/
def c8r : Row7 := ⟨"D1", "B1", "S1", "G1", "T1", "Alice", "9876543210"⟩

/-- Two valid rows with the same 10-digit mobile. -/
def c10rows : List Row :=
  [["D1", "B1", "S1", "G1", "T1", "Alice", "9876543210"],
   ["D2", "", "S2", "G2", "T2", "Bob", "9876543210"]]

/-- The accumulation state after processing `c10rows`: both Teacher
candidates queued despite the shared mobile. -/
def c10acc : AccState :=
  { seen := ["B1"],
    teachers := [⟨some "T1", "Alice", "9876543210", "D1", "S1", "G1"⟩,
                 ⟨some "T2", "Bob", "9876543210", "D2", "S2", "G2"⟩],
    batches := [⟨"B1", "D1", "Production Import", "S1", "G1"⟩],
    links := [⟨"B1", "9876543210", "Alice", "D1"⟩] }

/-! ## Lemmas about field cleaning -/

/-- Characterization of `clean_phone_number`: reject exactly when the raw
value is the literal `"null"` or fewer than 10 digits remain after
stripping; otherwise the first 10 stripped digits.  (The explicit
empty-string rejection of the Python code is subsumed: the empty string has
0 digits.) -/
theorem clean_phone_number_spec (raw : String) :
    clean_phone_number raw =
      if raw = "null" ∨ (stripNonDigits raw).length < 10 then none
      else some ((stripNonDigits raw).take 10) := by
  by_cases h0 : raw = ""
  · subst h0; decide
  · by_cases h1 : raw = "null"
    · simp [clean_phone_number, h1]
    · rcases Nat.lt_or_ge (stripNonDigits raw).length 10 with h2 | h2
      · simp [clean_phone_number, h0, h1, h2, Nat.not_le.mpr h2]
      · simp [clean_phone_number, h0, h1, h2, Nat.not_lt.mpr h2]

/-- fast-import.py's inline phone cleaning computes exactly
`clean_phone_number` of production-import.py. -/
theorem fastMobile_eq_clean_phone_number (raw : String) :
    fastMobile raw = clean_phone_number raw := by
  rw [clean_phone_number_spec]
  unfold fastMobile
  by_cases h1 : raw = "null"
  · simp [h1]
  · rcases Nat.lt_or_ge (stripNonDigits raw).length 10 with h2 | h2
    · simp [h1, h2]
    · simp [h1, h2, Nat.not_lt.mpr h2]

/-! ## Lemmas about the skip-on-conflict bulk insert -/

theorem bulkInsert_nil (conflict : α → α → Bool) (l : List α) :
    bulkInsert conflict l [] = l := rfl

theorem bulkInsert_cons (conflict : α → α → Bool) (l : List α) (y : α) (ys : List α) :
    bulkInsert conflict l (y :: ys) = bulkInsert conflict (insertOn conflict l y) ys := rfl

theorem bulkInsert_append (conflict : α → α → Bool) (l ch1 ch2 : List α) :
    bulkInsert conflict l (ch1 ++ ch2) = bulkInsert conflict (bulkInsert conflict l ch1) ch2 :=
  List.foldl_append _ _ _ _

/-- A record already matching some predicate keeps matching after an insert
(inserts only append). -/
theorem any_insertOn {conflict : α → α → Bool} {p : α → Bool} {l : List α}
    (x : α) (h : l.any p = true) : (insertOn conflict l x).any p = true := by
  unfold insertOn
  split
  · exact h
  · simp [List.any_append, h]

/-- `any` is preserved by a whole bulk insert. -/
theorem any_bulkInsert {conflict : α → α → Bool} {p : α → Bool} {l : List α}
    (ch : List α) (h : l.any p = true) : (bulkInsert conflict l ch).any p = true := by
  induction ch generalizing l with
  | nil => exact h
  | cons y ys ih => rw [bulkInsert_cons]; exact ih (any_insertOn y h)

/-- After inserting `x`, a record conflicting with `x` is present. -/
theorem any_insertOn_self {conflict : α → α → Bool}
    (hrefl : ∀ a, conflict a a = true) (l : List α) (x : α) :
    (insertOn conflict l x).any (conflict x) = true := by
  unfold insertOn
  split
  · next h => exact h
  · simp [List.any_append, hrefl]

/-- After bulk-inserting a chunk, every record of the chunk has a
conflicting record present. -/
theorem any_bulkInsert_mem {conflict : α → α → Bool}
    (hrefl : ∀ a, conflict a a = true) {ch : List α} {x : α}
    (hx : x ∈ ch) (l : List α) :
    (bulkInsert conflict l ch).any (conflict x) = true := by
  induction ch generalizing l with
  | nil => cases hx
  | cons y ys ih =>
    rw [bulkInsert_cons]
    rcases List.mem_cons.mp hx with rfl | hx'
    · exact any_bulkInsert ys (any_insertOn_self hrefl l x)
    · exact ih hx' _

/-- A bulk insert whose every record already conflicts is a no-op. -/
theorem bulkInsert_skip_all {conflict : α → α → Bool} {l ch : List α}
    (h : ∀ x ∈ ch, l.any (conflict x) = true) :
    bulkInsert conflict l ch = l := by
  induction ch with
  | nil => rfl
  | cons y ys ih =>
    rw [bulkInsert_cons]
    have hy : insertOn conflict l y = l := by
      unfold insertOn
      rw [if_pos (h y (List.mem_cons_self y ys))]
    rw [hy]
    exact ih fun x hx => h x (List.mem_cons_of_mem y hx)

theorem teacherConflict_refl (a : Teacher) : teacherConflict a a = true := by
  simp [teacherConflict]

theorem batchConflict_refl (a : Batch) : batchConflict a a = true := by
  simp [batchConflict]

theorem linkConflict_refl (a : Link) : linkConflict a a = true := by
  simp [linkConflict]

/-! ## Idempotence of applying a call sequence -/

/-- `keyPresent` is preserved by applying any further call. -/
theorem keyPresent_applyCall_mono {s : Store} {c : Call} (c' : Call)
    (h : keyPresent s c) : keyPresent (applyCall s c') c := by
  cases c <;> cases c' <;>
    simp only [keyPresent, applyCall] at * <;>
    intro x hx <;>
    first
      | exact any_bulkInsert _ (h x hx)
      | exact h x hx

/-- After applying a call, all its records are key-present. -/
theorem keyPresent_applyCall_self (s : Store) (c : Call) :
    keyPresent (applyCall s c) c := by
  cases c with
  | teachers ch =>
    intro x hx; exact any_bulkInsert_mem teacherConflict_refl hx _
  | batches ch =>
    intro x hx; exact any_bulkInsert_mem batchConflict_refl hx _
  | links ch =>
    intro x hx; exact any_bulkInsert_mem linkConflict_refl hx _

/-- A call all of whose records are key-present changes nothing. -/
theorem applyCall_of_keyPresent {s : Store} {c : Call}
    (h : keyPresent s c) : applyCall s c = s := by
  cases c <;>
    simp only [applyCall, keyPresent] at * <;>
    rw [bulkInsert_skip_all h]

/-- `keyPresent` is preserved by a whole call sequence. -/
theorem keyPresent_foldl_mono {c : Call} (cs : List Call) {s : Store}
    (h : keyPresent s c) : keyPresent (cs.foldl applyCall s) c := by
  induction cs generalizing s with
  | nil => exact h
  | cons d ds ih => exact ih (keyPresent_applyCall_mono d h)

/-- After running a call sequence, every record of every call of the
sequence is key-present. -/
theorem keyPresent_foldl (cs : List Call) (s : Store) :
    ∀ c ∈ cs, keyPresent (cs.foldl applyCall s) c := by
  induction cs generalizing s with
  | nil => intro c hc; cases hc
  | cons d ds ih =>
    intro c hc
    rw [List.foldl_cons]
    rcases List.mem_cons.mp hc with rfl | hc'
    · exact keyPresent_foldl_mono ds (keyPresent_applyCall_self s c)
    · exact ih (applyCall s d) c hc'

/-- A call sequence all of whose records are key-present is a no-op. -/
theorem foldl_applyCall_skip {cs : List Call} {s : Store}
    (h : ∀ c ∈ cs, keyPresent s c) : cs.foldl applyCall s = s := by
  induction cs with
  | nil => rfl
  | cons d ds ih =>
    rw [List.foldl_cons, applyCall_of_keyPresent (h d (List.mem_cons_self d ds))]
    exact ih fun c hc => h c (List.mem_cons_of_mem d hc)

/-- Replaying the same call sequence over its own result adds nothing:
skip-on-conflict insertion is idempotent. -/
theorem foldl_applyCall_idem (cs : List Call) (s : Store) :
    cs.foldl applyCall (cs.foldl applyCall s) = cs.foldl applyCall s :=
  foldl_applyCall_skip (keyPresent_foldl cs s)

/-! ## Lemmas about row decoding and accumulation -/

theorem decodeRow_short {row : Row} (h : row.length < 7) : decodeRow row = .skip := by
  unfold decodeRow
  rw [if_pos h]

theorem decodeRow_long {row : Row} (h : 7 < row.length) : decodeRow row = .err := by
  rcases row with _ | ⟨a, _ | ⟨b, _ | ⟨c, _ | ⟨d, _ | ⟨e, _ | ⟨f, _ | ⟨g, _ | ⟨x, t⟩⟩⟩⟩⟩⟩⟩⟩ <;>
    simp only [List.length_cons, List.length_nil] at h <;> first | omega | rfl

theorem decodeRow_not_err {row : Row} (h : row.length ≤ 7) : decodeRow row ≠ .err := by
  rcases Nat.lt_or_ge row.length 7 with h7 | h7
  · rw [decodeRow_short h7]; intro hc; cases hc
  · have h7' : row.length = 7 := Nat.le_antisymm h h7
    rcases row with _ | ⟨a, _ | ⟨b, _ | ⟨c, _ | ⟨d, _ | ⟨e, _ | ⟨f, _ | ⟨g, _ | ⟨x, t⟩⟩⟩⟩⟩⟩⟩⟩ <;>
      simp only [List.length_cons, List.length_nil] at h7' <;> try omega
    · unfold decodeRow
      rw [if_neg (by simp)]
      rcases hc : clean_phone_number g with _ | m <;> simp [hc]

theorem stepAcc_teachers (st : AccState) (r : Row7) (m : String) :
    (stepAcc st r m).teachers = st.teachers ++ [mkTeacher r m] := by
  unfold stepAcc
  split <;> split <;> rfl

theorem stepAcc_links (st : AccState) (r : Row7) (m : String) :
    (stepAcc st r m).links =
      if hasBatchName r then st.links ++ [mkLink r m] else st.links := by
  unfold stepAcc
  split <;> split <;> simp_all

theorem isValidRow_of_ok {row : Row} {r : Row7} {m : String}
    (h : decodeRow row = .ok r m) : isValidRow row = true := by
  simp [isValidRow, h]

theorem isValidRow_of_skip {row : Row} (h : decodeRow row = .skip) :
    isValidRow row = false := by
  simp [isValidRow, h]

theorem accRows_teachers_len :
    ∀ (rows : List Row) (st st' : AccState), accRows st rows = some st' →
      st'.teachers.length = st.teachers.length + countValid rows := by
  intro rows
  induction rows with
  | nil =>
    intro st st' h
    simp only [accRows] at h
    cases h
    simp [countValid]
  | cons row rest ih =>
    intro st st' h
    simp only [accRows, accRow] at h
    cases hd : decodeRow row with
    | err => rw [hd] at h; cases h
    | skip =>
      rw [hd] at h
      have := ih st st' h
      simp [countValid, List.countP_cons, isValidRow_of_skip hd] at *
      omega
    | ok r m =>
      rw [hd] at h
      have := ih _ st' h
      rw [stepAcc_teachers] at this
      simp [countValid, List.countP_cons, isValidRow_of_ok hd, List.length_append] at *
      omega

theorem contains_append_single (l : List String) (c b : String) :
    (l ++ [c]).contains b = (l.contains b || c == b) := by
  by_cases hcb : c = b
  · subst hcb
    simp [List.contains, List.elem_eq_mem]
  · have h1 : (c == b) = false := by simp [hcb]
    have h2 : ¬b = c := fun h => hcb h.symm
    simp [List.contains, List.elem_eq_mem, h1, h2]

theorem stepAcc_seen (st : AccState) (r : Row7) (m : String) :
    (stepAcc st r m).seen =
      if hasBatchName r && !(st.seen.contains r.batch_name) then st.seen ++ [r.batch_name]
      else st.seen := by
  unfold stepAcc
  split <;> split <;> simp_all

theorem stepAcc_batches (st : AccState) (r : Row7) (m : String) :
    (stepAcc st r m).batches =
      if hasBatchName r && !(st.seen.contains r.batch_name) then st.batches ++ [mkBatch r]
      else st.batches := by
  unfold stepAcc
  split <;> split <;> simp_all

theorem ite_cond_true {α : Sort _} {c : Bool} (h : c = true) (a b : α) :
    (if c = true then a else b) = a := by
  rw [h]
  simp

theorem ite_cond_false {α : Sort _} {c : Bool} (h : c = false) (a b : α) :
    (if c = true then a else b) = b := by
  rw [h]
  simp

/-- How one run affects, for a fixed batch name `b`: whether `b` has been
seen, the Batch candidates queued for `b`, and the Link candidates queued
for `b`.  The Batch candidate for `b` is queued exactly once, at the first
valid occurrence, unless `b` was already marked seen. -/
theorem accRows_byBatch (b : String) :
    ∀ (rows : List Row) (st st' : AccState), accRows st rows = some st' →
      (st'.seen.contains b = (st.seen.contains b || !(batchOcc b rows).isEmpty)) ∧
      (st'.batches.filter (fun x => x.batch_name == b) =
        st.batches.filter (fun x => x.batch_name == b) ++
          (if st.seen.contains b then []
           else ((batchOcc b rows).head?.map fun p => mkBatch p.1).toList)) ∧
      (st'.links.filter (fun x => x.batch_name == b) =
        st.links.filter (fun x => x.batch_name == b) ++
          ((batchOcc b rows).map fun p => mkLink p.1 p.2)) := by
  intro rows
  induction rows with
  | nil =>
    intro st st' h
    simp only [accRows] at h
    cases h
    simp [batchOcc]
  | cons row rest ih =>
    intro st st' h
    simp only [accRows, accRow] at h
    cases hd : decodeRow row with
    | err => rw [hd] at h; cases h
    | skip =>
      rw [hd] at h
      have hocc : batchOcc b (row :: rest) = batchOcc b rest := by
        simp [batchOcc, List.filterMap_cons, hd]
      rw [hocc]
      exact ih st st' h
    | ok r m =>
      rw [hd] at h
      obtain ⟨ih1, ih2, ih3⟩ := ih _ st' h
      rw [stepAcc_seen] at ih1 ih2
      rw [stepAcc_batches] at ih2
      rw [stepAcc_links] at ih3
      by_cases hbn : hasBatchName r = true
      · by_cases hname : r.batch_name = b
        · have hnb : (r.batch_name == b) = true := by simp [hname]
          have hocc : batchOcc b (row :: rest) = (r, m) :: batchOcc b rest := by
            simp [batchOcc, List.filterMap_cons, hd, hbn, hname]
          rw [hocc]
          simp only [ite_cond_true hbn] at ih3
          rw [List.filter_append] at ih3
          have hfl : List.filter (fun x => x.batch_name == b) [mkLink r m] = [mkLink r m] := by
            simp [mkLink, hnb]
          rw [hfl] at ih3
          by_cases hsb : st.seen.contains b = true
          · -- b already seen: no new Batch candidate, one new Link candidate
            have hcond1 : (hasBatchName r && !(st.seen.contains r.batch_name)) = false := by
              rw [hbn, hname, hsb]
              rfl
            simp only [ite_cond_false hcond1] at ih1 ih2
            simp only [ite_cond_true hsb] at ih2
            refine ⟨?_, ?_, ?_⟩
            · rw [ih1, hsb]
              simp
            · rw [ih2, ite_cond_true hsb]
            · rw [ih3]
              simp
          · have hsb' : st.seen.contains b = false := by simpa using hsb
            -- first valid occurrence of b: Batch and Link candidates queued
            have hcond1 : (hasBatchName r && !(st.seen.contains r.batch_name)) = true := by
              rw [hbn, hname, hsb']
              rfl
            simp only [ite_cond_true hcond1] at ih1 ih2
            have hcontains : (st.seen ++ [r.batch_name]).contains b = true := by
              rw [contains_append_single, hnb]
              simp
            rw [hcontains] at ih1
            simp only [ite_cond_true hcontains] at ih2
            rw [List.filter_append] at ih2
            have hfb : List.filter (fun x => x.batch_name == b) [mkBatch r] = [mkBatch r] := by
              simp [mkBatch, hnb]
            rw [hfb] at ih2
            refine ⟨?_, ?_, ?_⟩
            · rw [ih1, hsb']
              simp
            · rw [ih2, ite_cond_false hsb']
              simp
            · rw [ih3]
              simp
        · -- row carries some other batch name: nothing for b changes
          have hnb : (r.batch_name == b) = false := by simp [hname]
          have hocc : batchOcc b (row :: rest) = batchOcc b rest := by
            simp [batchOcc, List.filterMap_cons, hd, hname]
          rw [hocc]
          simp only [ite_cond_true hbn] at ih3
          rw [List.filter_append] at ih3
          have hfl : List.filter (fun x => x.batch_name == b) [mkLink r m] = [] := by
            simp [mkLink, hnb]
          rw [hfl, List.append_nil] at ih3
          by_cases hcond1 : (hasBatchName r && !(st.seen.contains r.batch_name)) = true
          · simp only [ite_cond_true hcond1] at ih1 ih2
            have hcontains : (st.seen ++ [r.batch_name]).contains b = st.seen.contains b := by
              rw [contains_append_single, hnb]
              simp
            rw [hcontains] at ih1
            rw [hcontains] at ih2
            rw [List.filter_append] at ih2
            have hfb : List.filter (fun x => x.batch_name == b) [mkBatch r] = [] := by
              simp [mkBatch, hnb]
            rw [hfb, List.append_nil] at ih2
            exact ⟨ih1, ih2, ih3⟩
          · have hcond1' : (hasBatchName r && !(st.seen.contains r.batch_name)) = false := by
              simpa using hcond1
            simp only [ite_cond_false hcond1'] at ih1 ih2
            exact ⟨ih1, ih2, ih3⟩
      · by_cases hname : r.batch_name = b
        case pos =>
          -- hasBatchName r is false although its name is b: then b itself is
          -- empty or the null sentinel, and batchOcc filters the row out too
          have hnb : (r.batch_name == b) = true := by simp [hname]
          have hbn' : hasBatchName r = false := by simpa using hbn
          have hocc : batchOcc b (row :: rest) = batchOcc b rest := by
            simp [batchOcc, List.filterMap_cons, hd, hbn']
          rw [hocc]
          have hcond1 : (hasBatchName r && !(st.seen.contains r.batch_name)) = false := by
            rw [hbn']
            rfl
          simp only [ite_cond_false hcond1] at ih1 ih2
          simp only [ite_cond_false hbn'] at ih3
          exact ⟨ih1, ih2, ih3⟩
        case neg =>
          have hnb : (r.batch_name == b) = false := by simp [hname]
          have hbn' : hasBatchName r = false := by simpa using hbn
          have hocc : batchOcc b (row :: rest) = batchOcc b rest := by
            simp [batchOcc, List.filterMap_cons, hd, hbn']
          rw [hocc]
          have hcond1 : (hasBatchName r && !(st.seen.contains r.batch_name)) = false := by
            rw [hbn']
            rfl
          simp only [ite_cond_false hcond1] at ih1 ih2
          simp only [ite_cond_false hbn'] at ih3
          exact ⟨ih1, ih2, ih3⟩

/-! ## Lemmas about the fast-import streaming machine -/

theorem flushTeachers_small {oracle : Call → Bool} {st : FastState}
    (h : st.teacher_batch.length < 1000) : flushTeachers oracle st = st := by
  unfold flushTeachers
  rw [if_neg (by omega)]

theorem flushTeachers_big {oracle : Call → Bool} {st : FastState}
    (h : 1000 ≤ st.teacher_batch.length) :
    flushTeachers oracle st =
      { st with
        calls := st.calls ++ [Call.teachers st.teacher_batch],
        store := if oracle (Call.teachers st.teacher_batch) then st.store
                 else applyCall st.store (Call.teachers st.teacher_batch),
        teacher_batch := [] } := by
  unfold flushTeachers
  rw [if_pos h]

theorem flushBatches_small {oracle : Call → Bool} {st : FastState}
    (h : st.batch_batch.length < 50) : flushBatches oracle st = st := by
  unfold flushBatches
  rw [if_neg (by omega)]

theorem flushBatches_big {oracle : Call → Bool} {st : FastState}
    (h : 50 ≤ st.batch_batch.length) :
    flushBatches oracle st =
      { st with
        calls := st.calls ++ [Call.batches st.batch_batch],
        store := if oracle (Call.batches st.batch_batch) then st.store
                 else applyCall st.store (Call.batches st.batch_batch),
        batch_batch := [] } := by
  unfold flushBatches
  rw [if_pos h]

theorem flushLinks_small {oracle : Call → Bool} {st : FastState}
    (h : st.link_batch.length < 1000) : flushLinks oracle st = st := by
  unfold flushLinks
  rw [if_neg (by omega)]

theorem flushLinks_big {oracle : Call → Bool} {st : FastState}
    (h : 1000 ≤ st.link_batch.length) :
    flushLinks oracle st =
      { st with
        calls := st.calls ++ [Call.links st.link_batch],
        store := if oracle (Call.links st.link_batch) then st.store
                 else applyCall st.store (Call.links st.link_batch),
        link_batch := [] } := by
  unfold flushLinks
  rw [if_pos h]

/-- Batch flushes never touch the teacher buffer or the teacher-call trace. -/
theorem flushBatches_teacher (oracle : Call → Bool) (st : FastState) :
    (flushBatches oracle st).teacher_batch = st.teacher_batch ∧
    teacherCallSizes (flushBatches oracle st).calls = teacherCallSizes st.calls := by
  unfold flushBatches
  split
  · constructor
    · rfl
    · simp [teacherCallSizes, List.filterMap_append]
  · exact ⟨rfl, rfl⟩

/-- Link flushes never touch the teacher buffer or the teacher-call trace. -/
theorem flushLinks_teacher (oracle : Call → Bool) (st : FastState) :
    (flushLinks oracle st).teacher_batch = st.teacher_batch ∧
    teacherCallSizes (flushLinks oracle st).calls = teacherCallSizes st.calls := by
  unfold flushLinks
  split
  · constructor
    · rfl
    · simp [teacherCallSizes, List.filterMap_append]
  · exact ⟨rfl, rfl⟩

theorem stepFast_teacher_batch (st : FastState) (r : Row7) (m : String) :
    (stepFast st r m).teacher_batch = st.teacher_batch ++ [mkTeacher r m] := by
  unfold stepFast
  split <;> split <;> rfl

theorem stepFast_calls (st : FastState) (r : Row7) (m : String) :
    (stepFast st r m).calls = st.calls := by
  unfold stepFast
  split <;> split <;> rfl

/-- A write error never aborts the streaming loop: only a row with more
than 7 fields does. -/
theorem fastRowsGo_total (oracle : Call → Bool) :
    ∀ (rows : List Row) (st : FastState), (∀ r ∈ rows, r.length ≤ 7) →
      (fastRowsGo oracle st rows).2 = true := by
  intro rows
  induction rows with
  | nil => intro st _; rfl
  | cons row rest ih =>
    intro st hlen
    simp only [fastRowsGo, fastRow]
    cases hd : decodeRow row with
    | err =>
      exact absurd hd (decodeRow_not_err (hlen row (List.mem_cons_self row rest)))
    | skip =>
      exact ih st fun r hr => hlen r (List.mem_cons_of_mem row hr)
    | ok r m =>
      exact ih _ fun r hr => hlen r (List.mem_cons_of_mem row hr)

theorem teacherCallSizes_append (cs ds : List Call) :
    teacherCallSizes (cs ++ ds) = teacherCallSizes cs ++ teacherCallSizes ds := by
  simp [teacherCallSizes, List.filterMap_append]

theorem countValid_cons_valid {row : Row} (rest : List Row)
    (h : isValidRow row = true) : countValid (row :: rest) = countValid rest + 1 := by
  simp [countValid, List.countP_cons, h]

theorem countValid_cons_invalid {row : Row} (rest : List Row)
    (h : isValidRow row = false) : countValid (row :: rest) = countValid rest := by
  simp [countValid, List.countP_cons, h]

/-- The batch and link flushes after a row keep the teacher buffer and the
teacher-call trace intact. -/
theorem flushBL_teacher (oracle : Call → Bool) (st : FastState) :
    (flushLinks oracle (flushBatches oracle st)).teacher_batch = st.teacher_batch ∧
    teacherCallSizes (flushLinks oracle (flushBatches oracle st)).calls =
      teacherCallSizes st.calls := by
  obtain ⟨hb1, hb2⟩ := flushBatches_teacher oracle st
  obtain ⟨hk1, hk2⟩ := flushLinks_teacher oracle (flushBatches oracle st)
  exact ⟨hk1.trans hb1, hk2.trans hb2⟩

/-- Streaming invariant for the teacher buffer of fast-import: starting
below the threshold, after the loop the teacher writer has been invoked
once per 1000 queued teacher candidates (each mid-stream chunk has exactly
1000 records) and the buffer holds the remainder. -/
theorem fastRowsGo_teacher_sizes (oracle : Call → Bool) :
    ∀ (rows : List Row) (st : FastState), st.teacher_batch.length < 1000 →
      (fastRowsGo oracle st rows).2 = true →
      teacherCallSizes (fastRowsGo oracle st rows).1.calls =
        teacherCallSizes st.calls ++
          List.replicate ((st.teacher_batch.length + countValid rows) / 1000) 1000 ∧
      (fastRowsGo oracle st rows).1.teacher_batch.length =
        (st.teacher_batch.length + countValid rows) % 1000 := by
  intro rows
  induction rows with
  | nil =>
    intro st hlen _
    have h0 : countValid ([] : List Row) = 0 := rfl
    refine ⟨?_, ?_⟩
    · show teacherCallSizes st.calls = _
      rw [h0, Nat.add_zero, Nat.div_eq_of_lt hlen]
      simp
    · show st.teacher_batch.length = _
      rw [h0, Nat.add_zero, Nat.mod_eq_of_lt hlen]
  | cons row rest ih =>
    intro st hlen htot
    simp only [fastRowsGo, fastRow] at htot ⊢
    cases hd : decodeRow row with
    | err =>
      rw [hd] at htot
      simp at htot
    | skip =>
      rw [hd] at htot
      dsimp only at htot ⊢
      rw [countValid_cons_invalid rest (isValidRow_of_skip hd)]
      exact ih st hlen htot
    | ok r m =>
      rw [hd] at htot
      dsimp only at htot ⊢
      rw [countValid_cons_valid rest (isValidRow_of_ok hd)]
      have hl3 : (stepFast st r m).teacher_batch.length = st.teacher_batch.length + 1 := by
        rw [stepFast_teacher_batch]
        simp
      by_cases h1000 : 1000 ≤ (stepFast st r m).teacher_batch.length
      · -- the buffer reaches exactly 1000: mid-stream flush of a full chunk
        have hfull : (stepFast st r m).teacher_batch.length = 1000 := by omega
        have hA1 : (flushTeachers oracle (stepFast st r m)).teacher_batch = [] := by
          rw [flushTeachers_big h1000]
        have hA2 : teacherCallSizes (flushTeachers oracle (stepFast st r m)).calls =
            teacherCallSizes st.calls ++ [1000] := by
          rw [flushTeachers_big h1000]
          show teacherCallSizes ((stepFast st r m).calls ++ _) = _
          rw [teacherCallSizes_append, stepFast_calls]
          simp [teacherCallSizes, hfull]
        have hS1 := (flushBL_teacher oracle (flushTeachers oracle (stepFast st r m))).1.trans hA1
        have hS2 := (flushBL_teacher oracle (flushTeachers oracle (stepFast st r m))).2.trans hA2
        obtain ⟨ihs, ihl⟩ := ih _ (by rw [hS1]; simp) htot
        constructor
        · rw [ihs, hS2, hS1]
          simp only [List.length_nil, Nat.zero_add, List.append_assoc]
          congr 1
          have harith : (st.teacher_batch.length + (countValid rest + 1)) / 1000 =
              countValid rest / 1000 + 1 := by omega
          rw [harith, List.replicate_succ]
          rfl
        · rw [ihl, hS1]
          simp only [List.length_nil, Nat.zero_add]
          omega
      · -- below the threshold: no teacher flush this row
        have hsmall : (stepFast st r m).teacher_batch.length < 1000 := by omega
        have hA1 : (flushTeachers oracle (stepFast st r m)).teacher_batch =
            (stepFast st r m).teacher_batch := by
          rw [flushTeachers_small hsmall]
        have hA2 : teacherCallSizes (flushTeachers oracle (stepFast st r m)).calls =
            teacherCallSizes st.calls := by
          rw [flushTeachers_small hsmall, stepFast_calls]
        have hS1 := (flushBL_teacher oracle (flushTeachers oracle (stepFast st r m))).1.trans hA1
        have hS2 := (flushBL_teacher oracle (flushTeachers oracle (stepFast st r m))).2.trans hA2
        have hlen4 : (flushLinks oracle (flushBatches oracle
            (flushTeachers oracle (stepFast st r m)))).teacher_batch.length =
            st.teacher_batch.length + 1 := by
          rw [hS1, hl3]
        obtain ⟨ihs, ihl⟩ := ih _ (by omega) htot
        constructor
        · rw [ihs, hS2, hlen4]
          congr 2
          omega
        · rw [ihl, hlen4]
          omega

/-! ## Lemmas about chunk slicing and the production call sequence -/

theorem chunksGo_nil {α : Type _} (n fuel : Nat) : chunksGo n fuel ([] : List α) = [] := by
  cases fuel <;> rfl

theorem chunksGo_step {α : Type _} (n fuel : Nat) (l : List α) (hl : l ≠ []) :
    chunksGo n (fuel + 1) l = l.take n :: chunksGo n fuel (l.drop n) := by
  cases l with
  | nil => exact absurd rfl hl
  | cons x xs => rfl

/-- 1500 records sliced at 1000 give one chunk of 1000 and one of 500. -/
theorem chunks_map_length_1500 {α : Type _} (l : List α) (h : l.length = 1500) :
    (chunks 1000 l).map List.length = [1000, 500] := by
  have hne : l ≠ [] := by
    intro he
    rw [he] at h
    simp at h
  unfold chunks
  rw [h]
  have e1 : (1500 : Nat) = 1499 + 1 := rfl
  rw [e1, chunksGo_step _ _ _ hne]
  have hd1 : (l.drop 1000).length = 500 := by
    rw [List.length_drop, h]
  have hne2 : l.drop 1000 ≠ [] := by
    intro he
    rw [he] at hd1
    simp at hd1
  have e2 : (1499 : Nat) = 1498 + 1 := rfl
  rw [e2, chunksGo_step _ _ _ hne2]
  have hd2 : (l.drop 1000).drop 1000 = [] := by
    rw [← List.length_eq_zero]
    rw [List.length_drop, hd1]
  rw [hd2, chunksGo_nil]
  simp [List.length_take, h, hd1]

theorem batchCallSizes_append (cs ds : List Call) :
    batchCallSizes (cs ++ ds) = batchCallSizes cs ++ batchCallSizes ds := by
  simp [batchCallSizes, List.filterMap_append]

theorem teacherCallSizes_map_teachers (ls : List (List Teacher)) :
    teacherCallSizes (ls.map Call.teachers) = ls.map List.length := by
  induction ls with
  | nil => rfl
  | cons x xs ih =>
    show x.length :: teacherCallSizes (xs.map Call.teachers) = x.length :: xs.map List.length
    rw [ih]

theorem teacherCallSizes_map_links (ls : List (List Link)) :
    teacherCallSizes (ls.map Call.links) = [] := by
  induction ls with
  | nil => rfl
  | cons x xs ih =>
    show teacherCallSizes (xs.map Call.links) = []
    exact ih

theorem batchCallSizes_map_teachers (ls : List (List Teacher)) :
    batchCallSizes (ls.map Call.teachers) = [] := by
  induction ls with
  | nil => rfl
  | cons x xs ih =>
    show batchCallSizes (xs.map Call.teachers) = []
    exact ih

theorem batchCallSizes_map_links (ls : List (List Link)) :
    batchCallSizes (ls.map Call.links) = [] := by
  induction ls with
  | nil => rfl
  | cons x xs ih =>
    show batchCallSizes (xs.map Call.links) = []
    exact ih

/-- In production-import the teacher writer is invoked exactly on the
1000-slices of the accumulated teacher records. -/
theorem teacherCallSizes_prodCalls (acc : AccState) :
    teacherCallSizes (prodCalls acc) = (chunks 1000 acc.teachers).map List.length := by
  unfold prodCalls
  rw [teacherCallSizes_append, teacherCallSizes_append]
  have h1 : teacherCallSizes
      (if acc.batches.isEmpty then [] else [Call.batches acc.batches]) = [] := by
    split <;> rfl
  rw [h1, teacherCallSizes_map_teachers, teacherCallSizes_map_links]
  simp

/-- In production-import the batch writer is invoked at most once, with all
accumulated batches in a single chunk, never sliced at 50. -/
theorem batchCallSizes_prodCalls (acc : AccState) :
    batchCallSizes (prodCalls acc) =
      if acc.batches.isEmpty then [] else [acc.batches.length] := by
  unfold prodCalls
  rw [batchCallSizes_append, batchCallSizes_append]
  rw [batchCallSizes_map_teachers, batchCallSizes_map_links]
  split <;> rfl

theorem decodeRow_ne_err_of_valid {row : Row} (h : isValidRow row = true) :
    decodeRow row ≠ .err := by
  unfold isValidRow at h
  intro hc
  rw [hc] at h
  cases h

/-- Streaming never aborts when no row decodes to a `ValueError`. -/
theorem fastRowsGo_total_ne (oracle : Call → Bool) :
    ∀ (rows : List Row) (st : FastState), (∀ r ∈ rows, decodeRow r ≠ .err) →
      (fastRowsGo oracle st rows).2 = true := by
  intro rows
  induction rows with
  | nil => intro st _; rfl
  | cons row rest ih =>
    intro st hne
    simp only [fastRowsGo, fastRow]
    cases hd : decodeRow row with
    | err => exact absurd hd (hne row (List.mem_cons_self row rest))
    | skip => exact ih st fun r hr => hne r (List.mem_cons_of_mem row hr)
    | ok r m => exact ih _ fun r hr => hne r (List.mem_cons_of_mem row hr)

theorem countValid_of_all_valid {rows : List Row}
    (h : ∀ r ∈ rows, isValidRow r = true) : countValid rows = rows.length :=
  List.countP_eq_length.mpr h

theorem isEmpty_false_of_length_pos {l : List α} (h : 0 < l.length) :
    l.isEmpty = false := by
  cases l with
  | nil => simp at h
  | cons x xs => rfl

theorem allOk_noErr (cs : List Call) : allOk (fun _ => false) cs = true := by
  simp [allOk]

theorem teacherCallSizes_finalCalls (st : FastState) :
    teacherCallSizes (finalCalls st) =
      if st.teacher_batch.isEmpty then [] else [st.teacher_batch.length] := by
  unfold finalCalls
  rw [teacherCallSizes_append, teacherCallSizes_append]
  have h2 : teacherCallSizes
      (if st.batch_batch.isEmpty then [] else [Call.batches st.batch_batch]) = [] := by
    split <;> rfl
  have h3 : teacherCallSizes
      (if st.link_batch.isEmpty then [] else [Call.links st.link_batch]) = [] := by
    split <;> rfl
  rw [h2, h3]
  split <;> rfl

/-- The 1500-row scenario on fast-import: with every row valid and no write
error, the teacher writer is invoked exactly twice — one mid-stream chunk
of 1000 and one final chunk of 500. -/
theorem import_data_teacher_sizes_1500 (rows : List Row) (s : Store)
    (hval : ∀ r ∈ rows, isValidRow r = true) (hlen : rows.length = 1500) :
    teacherCallSizes (import_data false false rows (fun _ => false) s).calls =
      [1000, 500] := by
  have htot : (fastRowsGo (fun _ => false) (initFast s) rows).2 = true :=
    fastRowsGo_total_ne _ rows _ fun r hr => decodeRow_ne_err_of_valid (hval r hr)
  have hcv : countValid rows = 1500 := by
    rw [countValid_of_all_valid hval, hlen]
  have hinit : (initFast s).teacher_batch.length < 1000 := by
    simp [initFast]
  obtain ⟨hsz, hrem⟩ := fastRowsGo_teacher_sizes (fun _ => false) rows (initFast s) hinit htot
  rw [hcv] at hsz hrem
  have h0 : (initFast s).teacher_batch.length = 0 := rfl
  have hc0 : teacherCallSizes (initFast s).calls = [] := rfl
  rw [h0, hc0] at hsz
  rw [h0] at hrem
  have hdiv : ((0 : Nat) + 1500) / 1000 = 1 := by norm_num
  have hmod : ((0 : Nat) + 1500) % 1000 = 500 := by norm_num
  rw [hdiv] at hsz
  rw [hmod] at hrem
  have hsz' : teacherCallSizes (fastRowsGo (fun _ => false) (initFast s) rows).1.calls =
      [1000] := by
    rw [hsz]
    rfl
  have hie : (fastRowsGo (fun _ => false) (initFast s) rows).1.teacher_batch.isEmpty =
      false :=
    isEmpty_false_of_length_pos (by rw [hrem]; norm_num)
  show teacherCallSizes (fastFinish (fun _ => false)
    (fastRowsGo (fun _ => false) (initFast s) rows)).calls = [1000, 500]
  unfold fastFinish
  rw [htot, ite_cond_true rfl, ite_cond_true (allOk_noErr _)]
  rw [teacherCallSizes_append, hsz', teacherCallSizes_finalCalls, hie,
    ite_cond_false rfl, hrem]
  rfl

/-! ## Helper characterizations of the two run functions -/

theorem decodeRow_seven (d b sv t ti tn p : String) :
    decodeRow [d, b, sv, t, ti, tn, p] =
      match clean_phone_number p with
      | none => .skip
      | some m => .ok ⟨d, b, sv, t, ti, tn, p⟩ m := by
  unfold decodeRow
  rw [if_neg (by simp)]

theorem fastFinish_exitCode (oracle : Call → Bool) (res : FastState × Bool) :
    (fastFinish oracle res).exitCode = 0 := by
  unfold fastFinish
  split
  · split <;> rfl
  · rfl

theorem import_production_data_main (rows : List Row) (oracle : Call → Bool) (s : Store) :
    import_production_data false false rows oracle s =
      match accRows initAcc rows with
      | none => ⟨s, [], 1⟩
      | some acc =>
        if allOk oracle (prodCalls acc) then
          ⟨(prodCalls acc).foldl applyCall s, prodCalls acc, 0⟩
        else ⟨s, attempted oracle (prodCalls acc), 1⟩ := rfl

theorem import_data_main (rows : List Row) (oracle : Call → Bool) (s : Store) :
    import_data false false rows oracle s =
      fastFinish oracle (fastRowsGo oracle (initFast s) rows) := rfl

theorem accRows_some_of_ne_err :
    ∀ (rows : List Row) (st : AccState), (∀ r ∈ rows, decodeRow r ≠ .err) →
      ∃ st', accRows st rows = some st' := by
  intro rows
  induction rows with
  | nil => intro st _; exact ⟨st, rfl⟩
  | cons row rest ih =>
    intro st h
    simp only [accRows, accRow]
    cases hd : decodeRow row with
    | err => exact absurd hd (h row (List.mem_cons_self row rest))
    | skip => exact ih st fun r hr => h r (List.mem_cons_of_mem row hr)
    | ok r m => exact ih _ fun r hr => h r (List.mem_cons_of_mem row hr)

/-! ## The store content of an error-free fast-import run -/

theorem stepFast_seen (st : FastState) (r : Row7) (m : String) :
    (stepFast st r m).seen =
      if hasBatchName r && !(st.seen.contains r.batch_name) then st.seen ++ [r.batch_name]
      else st.seen := by
  unfold stepFast
  split <;> split <;> simp_all

theorem stepFast_batch_batch (st : FastState) (r : Row7) (m : String) :
    (stepFast st r m).batch_batch =
      if hasBatchName r && !(st.seen.contains r.batch_name) then st.batch_batch ++ [mkBatch r]
      else st.batch_batch := by
  unfold stepFast
  split <;> split <;> simp_all

theorem stepFast_link_batch (st : FastState) (r : Row7) (m : String) :
    (stepFast st r m).link_batch =
      if hasBatchName r then st.link_batch ++ [mkLink r m] else st.link_batch := by
  unfold stepFast
  split <;> split <;> simp_all

theorem stepFast_store (st : FastState) (r : Row7) (m : String) :
    (stepFast st r m).store = st.store := by
  unfold stepFast
  split <;> split <;> rfl

/-- The correspondence holds at the start of both loops. -/
theorem FastRel_init (s : Store) : FastRel s (initFast s) initAcc :=
  ⟨rfl, ⟨[], rfl, rfl⟩, ⟨[], rfl, rfl⟩, ⟨[], rfl, rfl⟩⟩

/-- Queuing one validated row preserves the correspondence. -/
theorem stepFast_rel {s : Store} {st : FastState} {ast : AccState}
    (h : FastRel s st ast) (r : Row7) (m : String) :
    FastRel s (stepFast st r m) (stepAcc ast r m) := by
  obtain ⟨hseen, ⟨ct, hct, hst⟩, ⟨cb, hcb, hsb⟩, ⟨cl, hcl, hsl⟩⟩ := h
  refine ⟨?_, ⟨ct, ?_, ?_⟩, ⟨cb, ?_, ?_⟩, ⟨cl, ?_, ?_⟩⟩
  · rw [stepFast_seen, stepAcc_seen, hseen]
  · rw [stepAcc_teachers, stepFast_teacher_batch, hct, List.append_assoc]
  · rw [stepFast_store, hst]
  · rw [stepAcc_batches, stepFast_batch_batch, hseen]
    by_cases hcond : (hasBatchName r && !(ast.seen.contains r.batch_name)) = true
    · rw [ite_cond_true hcond, ite_cond_true hcond, hcb, List.append_assoc]
    · have hcond' : (hasBatchName r && !(ast.seen.contains r.batch_name)) = false := by
        simpa using hcond
      rw [ite_cond_false hcond', ite_cond_false hcond', hcb]
  · rw [stepFast_store, hsb]
  · rw [stepAcc_links, stepFast_link_batch]
    by_cases hbn : hasBatchName r = true
    · rw [ite_cond_true hbn, ite_cond_true hbn, hcl, List.append_assoc]
    · have hbn' : hasBatchName r = false := by simpa using hbn
      rw [ite_cond_false hbn', ite_cond_false hbn', hcl]
  · rw [stepFast_store, hsl]

/-- An error-free mid-stream teacher flush preserves the correspondence:
the flushed chunk moves from the buffer to the committed prefix. -/
theorem flushTeachers_rel {s : Store} {st : FastState} {ast : AccState}
    (h : FastRel s st ast) :
    FastRel s (flushTeachers (fun _ => false) st) ast := by
  obtain ⟨hseen, ⟨ct, hct, hst⟩, ⟨cb, hcb, hsb⟩, ⟨cl, hcl, hsl⟩⟩ := h
  by_cases hlen : 1000 ≤ st.teacher_batch.length
  · rw [flushTeachers_big hlen]
    refine ⟨hseen, ⟨ct ++ st.teacher_batch, ?_, ?_⟩, ⟨cb, hcb, hsb⟩, ⟨cl, hcl, hsl⟩⟩
    · rw [List.append_nil]
      exact hct
    · show bulkInsert teacherConflict st.store.teachers st.teacher_batch = _
      rw [hst, bulkInsert_append]
  · rw [flushTeachers_small (by omega)]
    exact ⟨hseen, ⟨ct, hct, hst⟩, ⟨cb, hcb, hsb⟩, ⟨cl, hcl, hsl⟩⟩

/-- An error-free mid-stream batch flush preserves the correspondence. -/
theorem flushBatches_rel {s : Store} {st : FastState} {ast : AccState}
    (h : FastRel s st ast) :
    FastRel s (flushBatches (fun _ => false) st) ast := by
  obtain ⟨hseen, ⟨ct, hct, hst⟩, ⟨cb, hcb, hsb⟩, ⟨cl, hcl, hsl⟩⟩ := h
  by_cases hlen : 50 ≤ st.batch_batch.length
  · rw [flushBatches_big hlen]
    refine ⟨hseen, ⟨ct, hct, hst⟩, ⟨cb ++ st.batch_batch, ?_, ?_⟩, ⟨cl, hcl, hsl⟩⟩
    · rw [List.append_nil]
      exact hcb
    · show bulkInsert batchConflict st.store.batches st.batch_batch = _
      rw [hsb, bulkInsert_append]
  · rw [flushBatches_small (by omega)]
    exact ⟨hseen, ⟨ct, hct, hst⟩, ⟨cb, hcb, hsb⟩, ⟨cl, hcl, hsl⟩⟩

/-- An error-free mid-stream link flush preserves the correspondence. -/
theorem flushLinks_rel {s : Store} {st : FastState} {ast : AccState}
    (h : FastRel s st ast) :
    FastRel s (flushLinks (fun _ => false) st) ast := by
  obtain ⟨hseen, ⟨ct, hct, hst⟩, ⟨cb, hcb, hsb⟩, ⟨cl, hcl, hsl⟩⟩ := h
  by_cases hlen : 1000 ≤ st.link_batch.length
  · rw [flushLinks_big hlen]
    refine ⟨hseen, ⟨ct, hct, hst⟩, ⟨cb, hcb, hsb⟩, ⟨cl ++ st.link_batch, ?_, ?_⟩⟩
    · rw [List.append_nil]
      exact hcl
    · show bulkInsert linkConflict st.store.batch_teachers st.link_batch = _
      rw [hsl, bulkInsert_append]
  · rw [flushLinks_small (by omega)]
    exact ⟨hseen, ⟨ct, hct, hst⟩, ⟨cb, hcb, hsb⟩, ⟨cl, hcl, hsl⟩⟩

/-- The correspondence is an invariant of the whole error-free streaming
loop, run side by side with the plain accumulation loop. -/
theorem fastRowsGo_rel (s : Store) :
    ∀ (rows : List Row) (st : FastState) (ast : AccState)
      (st' : FastState) (ast' : AccState),
      fastRowsGo (fun _ => false) st rows = (st', true) →
      accRows ast rows = some ast' →
      FastRel s st ast → FastRel s st' ast' := by
  intro rows
  induction rows with
  | nil =>
    intro st ast st' ast' hf ha hrel
    simp only [fastRowsGo] at hf
    simp only [accRows] at ha
    injection hf with hf1 _
    injection ha with ha1
    subst hf1
    subst ha1
    exact hrel
  | cons row rest ih =>
    intro st ast st' ast' hf ha hrel
    simp only [fastRowsGo, fastRow] at hf
    simp only [accRows, accRow] at ha
    cases hd : decodeRow row with
    | err =>
      rw [hd] at ha
      dsimp only at ha
      exact Option.noConfusion ha
    | skip =>
      rw [hd] at hf ha
      dsimp only at hf ha
      exact ih st ast st' ast' hf ha hrel
    | ok r m =>
      rw [hd] at hf ha
      dsimp only at hf ha
      exact ih _ _ st' ast' hf ha
        (flushLinks_rel (flushBatches_rel (flushTeachers_rel (stepFast_rel hrel r m))))

/-- The final flush writes each non-empty buffer into its table; with the
empty bulk insert being the identity, the result is the three buffer
inserts unconditionally. -/
theorem finalCalls_store (st : FastState) (S : Store) :
    (finalCalls st).foldl applyCall S =
      { teachers := bulkInsert teacherConflict S.teachers st.teacher_batch,
        batches := bulkInsert batchConflict S.batches st.batch_batch,
        batch_teachers := bulkInsert linkConflict S.batch_teachers st.link_batch } := by
  unfold finalCalls
  rcases st.teacher_batch with _ | ⟨t, ts⟩ <;>
    rcases st.batch_batch with _ | ⟨b, bs⟩ <;>
    rcases st.link_batch with _ | ⟨l, ls⟩ <;>
    rfl

/-- A successful accumulation visits every row, so none raises. -/
theorem accRows_ne_err :
    ∀ (rows : List Row) (st st' : AccState), accRows st rows = some st' →
      ∀ r ∈ rows, decodeRow r ≠ .err := by
  intro rows
  induction rows with
  | nil =>
    intro st st' _ r hr
    cases hr
  | cons row rest ih =>
    intro st st' h r hr
    simp only [accRows, accRow] at h
    cases hd : decodeRow row with
    | err =>
      rw [hd] at h
      dsimp only at h
      exact Option.noConfusion h
    | skip =>
      rw [hd] at h
      dsimp only at h
      rcases List.mem_cons.mp hr with rfl | hr'
      · rw [hd]
        intro hc
        cases hc
      · exact ih st st' h r hr'
    | ok rr mm =>
      rw [hd] at h
      dsimp only at h
      rcases List.mem_cons.mp hr with rfl | hr'
      · rw [hd]
        intro hc
        cases hc
      · exact ih _ st' h r hr'

/-- Replaying a chunk over its own insertion result adds nothing. -/
theorem bulkInsert_idem {conflict : α → α → Bool}
    (hrefl : ∀ a, conflict a a = true) (l ch : List α) :
    bulkInsert conflict (bulkInsert conflict l ch) ch = bulkInsert conflict l ch :=
  bulkInsert_skip_all fun _ hx => any_bulkInsert_mem hrefl hx l

theorem applyAcc_idem (acc : AccState) (s : Store) :
    applyAcc acc (applyAcc acc s) = applyAcc acc s := by
  unfold applyAcc
  dsimp only
  rw [bulkInsert_idem teacherConflict_refl, bulkInsert_idem batchConflict_refl,
     bulkInsert_idem linkConflict_refl]

/-- The store produced by an error-free fast-import run is exactly every
accumulated candidate bulk-inserted, in order, over the starting store. -/
theorem import_data_store (rows : List Row) (s : Store) (acc : AccState)
    (hacc : accRows initAcc rows = some acc) :
    (import_data false false rows (fun _ => false) s).store = applyAcc acc s := by
  have hne : ∀ r ∈ rows, decodeRow r ≠ .err := accRows_ne_err rows initAcc acc hacc
  have htot : (fastRowsGo (fun _ => false) (initFast s) rows).2 = true :=
    fastRowsGo_total_ne _ rows _ hne
  have hpair : fastRowsGo (fun _ => false) (initFast s) rows =
      ((fastRowsGo (fun _ => false) (initFast s) rows).1, true) := by
    rw [← htot]
  have hrel : FastRel s (fastRowsGo (fun _ => false) (initFast s) rows).1 acc :=
    fastRowsGo_rel s rows (initFast s) initAcc _ acc hpair hacc (FastRel_init s)
  obtain ⟨hseen, ⟨ct, hct, hst⟩, ⟨cb, hcb, hsb⟩, ⟨cl, hcl, hsl⟩⟩ := hrel
  rw [import_data_main]
  unfold fastFinish
  rw [htot, ite_cond_true rfl, ite_cond_true (allOk_noErr _)]
  dsimp only
  rw [finalCalls_store]
  unfold applyAcc
  rw [hst, hsb, hsl, ← bulkInsert_append, ← bulkInsert_append, ← bulkInsert_append,
     ← hct, ← hcb, ← hcl]

/-! ## Claim theorems -/

/-- C2: for every raw phone input, normalization strips every non-numeric
character, rejects the input if the raw value was the literal `"null"` or if
fewer than 10 digits remain after stripping, and otherwise returns exactly
the first 10 digits of the stripped value (this holds for
production-import's `clean_phone_number` and for fast-import's inline
cleaning, which coincide); in particular input `"12345"` is rejected and a
row carrying it yields zero candidates. -/
theorem c2_phone_normalization :
    (∀ raw : String, clean_phone_number raw =
        if raw = "null" ∨ (stripNonDigits raw).length < 10 then none
        else some ((stripNonDigits raw).take 10)) ∧
    (∀ raw : String, fastMobile raw = clean_phone_number raw) ∧
    clean_phone_number "12345" = none ∧
    (∀ (st : AccState) (d b sv t ti tn : String),
        accRow st [d, b, sv, t, ti, tn, "12345"] = some st) := by
  refine ⟨clean_phone_number_spec, fastMobile_eq_clean_phone_number, rfl, ?_⟩
  intro st d b sv t ti tn
  have h5 : clean_phone_number "12345" = none := rfl
  have hdec : decodeRow [d, b, sv, t, ti, tn, "12345"] = .skip := by
    rw [decodeRow_seven, h5]
  unfold accRow
  rw [hdec]

/-- C3: for every run and batch name `b`, the queued Batch candidates whose
name is `b` are exactly one per first valid occurrence of `b` (none when no
valid row references `b`), built by `mkBatch` from the first such row — so
its district, service type and training group come from that row — while
the queued Link candidates for `b` are exactly one per valid row
referencing `b`, in order. -/
theorem c3_batch_dedup (rows : List Row) (st' : AccState) (b : String)
    (h : accRows initAcc rows = some st') :
    st'.batches.filter (fun x => x.batch_name == b) =
      ((batchOcc b rows).head?.map fun p => mkBatch p.1).toList ∧
    st'.links.filter (fun x => x.batch_name == b) =
      ((batchOcc b rows).map fun p => mkLink p.1 p.2) := by
  obtain ⟨h1, h2, h3⟩ := accRows_byBatch b rows initAcc st' h
  constructor
  · rw [h2, show List.filter (fun x => x.batch_name == b) initAcc.batches = [] from rfl,
       show initAcc.seen.contains b = false from rfl, ite_cond_false rfl]
    rfl
  · rw [h3, show List.filter (fun x => x.batch_name == b) initAcc.links = [] from rfl]
    rfl

/-- Witness for C3 at `c3rows` (two of three rows share batch `"B1"`). -/
theorem c3_witness :
    accRows initAcc c3rows = some c3acc ∧
    (c3acc.batches.filter (fun x => x.batch_name == "B1") =
        ((batchOcc "B1" c3rows).head?.map fun p => mkBatch p.1).toList ∧
     c3acc.links.filter (fun x => x.batch_name == "B1") =
        ((batchOcc "B1" c3rows).map fun p => mkLink p.1 p.2)) :=
  ⟨by decide, c3_batch_dedup c3rows c3acc "B1" (by decide)⟩

/-- C4 counterexample: a row with MORE than 7 fields is not skipped — the
7-way unpacking raises `ValueError`, which aborts the run: in
production-import the process exits 1 (a run-level failure), and in
fast-import the streaming loop stops, so a subsequent valid row is never
processed. -/
theorem c4_counterexample :
    accRow initAcc ["D1", "B1", "S1", "G1", "T1", "Alice", "9876543210", "x"] = none ∧
    (import_production_data false false
        [["D1", "B1", "S1", "G1", "T1", "Alice", "9876543210", "x"]]
        (fun _ => false) emptyStore).exitCode = 1 ∧
    (fastRowsGo (fun _ => false) (initFast emptyStore)
        [["D1", "B1", "S1", "G1", "T1", "Alice", "9876543210", "x"],
         ["D2", "B2", "S2", "G2", "T2", "Bob", "1234567890"]]).1.teacher_batch = [] := by
  decide

/-- C4 amended: a row with FEWER than 7 fields is skipped (no candidate, no
state change) and the run continues, in both variants; a row with more than
7 fields instead raises an unpacking error that aborts the run. -/
theorem c4_amended_row_length (st : AccState) (fst : FastState)
    (oracle : Call → Bool) (row : Row) :
    (row.length < 7 →
      accRow st row = some st ∧ fastRow oracle fst row = some fst) ∧
    (7 < row.length →
      accRow st row = none ∧ fastRow oracle fst row = none) := by
  constructor
  · intro h
    unfold accRow fastRow
    rw [decodeRow_short h]
    exact ⟨rfl, rfl⟩
  · intro h
    unfold accRow fastRow
    rw [decodeRow_long h]
    exact ⟨rfl, rfl⟩

/-- Witness for C4 (amended) at a 1-field row and an 8-field row. -/
theorem c4_witness :
    (accRow initAcc ["a"] = some initAcc ∧
     fastRow (fun _ => false) (initFast emptyStore) ["a"] =
       some (initFast emptyStore)) ∧
    (accRow initAcc ["a", "b", "c", "d", "e", "f", "g", "h"] = none ∧
     fastRow (fun _ => false) (initFast emptyStore)
       ["a", "b", "c", "d", "e", "f", "g", "h"] = none) :=
  ⟨(c4_amended_row_length initAcc (initFast emptyStore) (fun _ => false)
      ["a"]).1 (by decide),
   (c4_amended_row_length initAcc (initFast emptyStore) (fun _ => false)
      ["a", "b", "c", "d", "e", "f", "g", "h"]).2 (by decide)⟩

/-- C8: for every row that survives phone validation, a Teacher candidate
is queued, and a Link candidate is queued exactly when the row's batch name
is non-empty and not the literal `"null"` — for an arbitrary accumulation
state, hence independently of the Batch dedup set. -/
theorem c8_candidates (st : AccState) (row : Row) (r : Row7) (m : String)
    (h : decodeRow row = .ok r m) :
    accRow st row = some (stepAcc st r m) ∧
    (stepAcc st r m).teachers = st.teachers ++ [mkTeacher r m] ∧
    (stepAcc st r m).links =
      (if hasBatchName r then st.links ++ [mkLink r m] else st.links) := by
  refine ⟨?_, stepAcc_teachers st r m, stepAcc_links st r m⟩
  unfold accRow
  rw [h]

/-- Witness for C8 at a concrete valid row. -/
theorem c8_witness :
    accRow initAcc ["D1", "B1", "S1", "G1", "T1", "Alice", "9876543210"] =
      some (stepAcc initAcc c8r "9876543210") ∧
    (stepAcc initAcc c8r "9876543210").teachers =
      initAcc.teachers ++ [mkTeacher c8r "9876543210"] ∧
    (stepAcc initAcc c8r "9876543210").links =
      (if hasBatchName c8r then initAcc.links ++ [mkLink c8r "9876543210"]
       else initAcc.links) :=
  c8_candidates initAcc _ c8r "9876543210" (by decide)

/-- C10: Teacher candidates are never deduplicated in memory — every
validated row appends exactly one Teacher candidate, with no look-up of
earlier candidates' mobiles (first conjunct: the append is unconditional;
second: the buffer grows by exactly the number of valid rows); teacher
uniqueness is enforced only by the store's skip-on-conflict insert (third
conjunct: an insert whose mobile is already present is dropped). -/
theorem c10_no_teacher_dedup :
    (∀ (st : AccState) (row : Row) (r : Row7) (m : String),
      decodeRow row = .ok r m →
        accRow st row = some (stepAcc st r m) ∧
        (stepAcc st r m).teachers = st.teachers ++ [mkTeacher r m]) ∧
    (∀ (rows : List Row) (st st' : AccState), accRows st rows = some st' →
      st'.teachers.length = st.teachers.length + countValid rows) ∧
    (∀ (ts : List Teacher) (t : Teacher), ts.any (teacherConflict t) = true →
      insertOn teacherConflict ts t = ts) := by
  refine ⟨?_, accRows_teachers_len, ?_⟩
  · intro st row r m h
    refine ⟨?_, stepAcc_teachers st r m⟩
    unfold accRow
    rw [h]
  · intro ts t h
    unfold insertOn
    rw [if_pos h]

/-- Witness for C10 at two rows sharing one mobile: both Teacher candidates
are queued. -/
theorem c10_witness :
    accRows initAcc c10rows = some c10acc ∧
    c10acc.teachers.length = initAcc.teachers.length + countValid c10rows :=
  ⟨by decide, c10_no_teacher_dedup.2.1 c10rows initAcc c10acc (by decide)⟩

/-- C1 counterexample: chunk errors are NOT isolated in the final flush nor
in production-import.  Fast-import, one valid row, teacher inserts raise:
the final flush attempts only the teacher chunk — the pending batch and
link chunks (finalCalls has 3 chunks) are never attempted, and the whole
final transaction is rolled back (store unchanged), yet the claim requires
every subsequent chunk to be attempted.  Production-import, batch insert
raises: only 1 of the 3 pending chunks is attempted and the run exits 1
instead of continuing. -/
theorem c1_counterexample :
    (import_data false false [["D1", "B1", "S1", "G1", "T1", "Alice", "9876543210"]]
        (fun c => match c with | Call.teachers _ => true | _ => false)
        emptyStore).calls =
      [Call.teachers [⟨some "T1", "Alice", "9876543210", "D1", "S1", "G1"⟩]] ∧
    (import_data false false [["D1", "B1", "S1", "G1", "T1", "Alice", "9876543210"]]
        (fun c => match c with | Call.teachers _ => true | _ => false)
        emptyStore).store = emptyStore ∧
    (finalCalls (fastRowsGo (fun c => match c with | Call.teachers _ => true | _ => false)
        (initFast emptyStore)
        [["D1", "B1", "S1", "G1", "T1", "Alice", "9876543210"]]).1).length = 3 ∧
    (import_production_data false false
        [["D1", "B1", "S1", "G1", "T1", "Alice", "9876543210"]]
        (fun c => match c with | Call.batches _ => true | _ => false)
        emptyStore).calls.length = 1 ∧
    (import_production_data false false
        [["D1", "B1", "S1", "G1", "T1", "Alice", "9876543210"]]
        (fun c => match c with | Call.batches _ => true | _ => false)
        emptyStore).exitCode = 1 ∧
    (match accRows initAcc [["D1", "B1", "S1", "G1", "T1", "Alice", "9876543210"]] with
     | some acc => (prodCalls acc).length
     | none => 0) = 3 := by
  decide

/-- C1 amended: chunk-failure isolation holds exactly for fast-import's
MID-STREAM flushes: a flush whose bulk insert raises leaves the store
unchanged (that chunk's transaction is rolled back), discards exactly that
chunk's records from the buffer, records the attempt, and the streaming
loop always continues (it aborts only on a malformed row, never on a write
error).  The final flush and production-import are not isolated per chunk
(see the counterexample). -/
theorem c1_amended_chunk_isolation :
    (∀ (oracle : Call → Bool) (st : FastState),
      1000 ≤ st.teacher_batch.length →
      oracle (Call.teachers st.teacher_batch) = true →
        (flushTeachers oracle st).store = st.store ∧
        (flushTeachers oracle st).teacher_batch = [] ∧
        (flushTeachers oracle st).calls =
          st.calls ++ [Call.teachers st.teacher_batch]) ∧
    (∀ (oracle : Call → Bool) (st : FastState),
      50 ≤ st.batch_batch.length →
      oracle (Call.batches st.batch_batch) = true →
        (flushBatches oracle st).store = st.store ∧
        (flushBatches oracle st).batch_batch = [] ∧
        (flushBatches oracle st).calls =
          st.calls ++ [Call.batches st.batch_batch]) ∧
    (∀ (oracle : Call → Bool) (st : FastState),
      1000 ≤ st.link_batch.length →
      oracle (Call.links st.link_batch) = true →
        (flushLinks oracle st).store = st.store ∧
        (flushLinks oracle st).link_batch = [] ∧
        (flushLinks oracle st).calls =
          st.calls ++ [Call.links st.link_batch]) ∧
    (∀ (oracle : Call → Bool) (rows : List Row) (st : FastState),
      (∀ r ∈ rows, r.length ≤ 7) → (fastRowsGo oracle st rows).2 = true) := by
  refine ⟨?_, ?_, ?_, ?_⟩
  · intro oracle st hlen hor
    rw [flushTeachers_big hlen]
    exact ⟨ite_cond_true hor _ _, rfl, rfl⟩
  · intro oracle st hlen hor
    rw [flushBatches_big hlen]
    exact ⟨ite_cond_true hor _ _, rfl, rfl⟩
  · intro oracle st hlen hor
    rw [flushLinks_big hlen]
    exact ⟨ite_cond_true hor _ _, rfl, rfl⟩
  · intro oracle rows st h
    exact fastRowsGo_total oracle rows st h

/-- Witness for C1 (amended) at full buffers and an always-failing oracle. -/
theorem c1_witness :
    ((flushTeachers (fun _ => true) c1wst).store = c1wst.store ∧
     (flushTeachers (fun _ => true) c1wst).teacher_batch = [] ∧
     (flushTeachers (fun _ => true) c1wst).calls =
       c1wst.calls ++ [Call.teachers c1wst.teacher_batch]) ∧
    ((flushBatches (fun _ => true) c1wst).store = c1wst.store ∧
     (flushBatches (fun _ => true) c1wst).batch_batch = [] ∧
     (flushBatches (fun _ => true) c1wst).calls =
       c1wst.calls ++ [Call.batches c1wst.batch_batch]) ∧
    ((flushLinks (fun _ => true) c1wst).store = c1wst.store ∧
     (flushLinks (fun _ => true) c1wst).link_batch = [] ∧
     (flushLinks (fun _ => true) c1wst).calls =
       c1wst.calls ++ [Call.links c1wst.link_batch]) ∧
    (fastRowsGo (fun _ => true) c1wst [["x"]]).2 = true :=
  ⟨c1_amended_chunk_isolation.1 _ c1wst
     (by rw [show c1wst.teacher_batch =
          List.replicate 1000 (⟨none, "N", "9876543210", "D", "S", "G"⟩ : Teacher) from rfl,
        List.length_replicate]) rfl,
   c1_amended_chunk_isolation.2.1 _ c1wst
     (by rw [show c1wst.batch_batch =
          List.replicate 50 (⟨"B", "D", "Production Import", "S", "G"⟩ : Batch) from rfl,
        List.length_replicate]) rfl,
   c1_amended_chunk_isolation.2.2.1 _ c1wst
     (by rw [show c1wst.link_batch =
          List.replicate 1000 (⟨"B", "9876543210", "N", "D"⟩ : Link) from rfl,
        List.length_replicate]) rfl,
   c1_amended_chunk_isolation.2.2.2 _ [["x"]] c1wst (by decide)⟩

/-- C5: running the full import twice on the same rows — first against the
empty store, then against the store the first run produced — changes
nothing the second time, in BOTH variants.  Production-import: the second
run returns the first run's store unchanged (with the same call sequence
and exit 0), and the first run exits 0.  Fast-import: the second run's
final store equals the first run's, and the run exits 0.  In both cases the
second run issues only skip-on-conflict inserts against keys that are
already present, so no new row (and no changed count) can appear. -/
theorem c5_idempotent (rows : List Row) (acc : AccState)
    (hacc : accRows initAcc rows = some acc) :
    import_production_data false false rows (fun _ => false)
        (import_production_data false false rows (fun _ => false) emptyStore).store =
      { store := (import_production_data false false rows
          (fun _ => false) emptyStore).store,
        calls := (import_production_data false false rows
          (fun _ => false) emptyStore).calls,
        exitCode := 0 } ∧
    (import_production_data false false rows (fun _ => false) emptyStore).exitCode
      = 0 ∧
    (import_data false false rows (fun _ => false)
        (import_data false false rows (fun _ => false) emptyStore).store).store =
      (import_data false false rows (fun _ => false) emptyStore).store ∧
    (import_data false false rows (fun _ => false) emptyStore).exitCode = 0 := by
  have hprod : import_production_data false false rows (fun _ => false) emptyStore =
      ⟨(prodCalls acc).foldl applyCall emptyStore, prodCalls acc, 0⟩ := by
    rw [import_production_data_main, hacc]
    dsimp only
    rw [ite_cond_true (allOk_noErr _)]
  refine ⟨?_, ?_, ?_, ?_⟩
  · rw [hprod]
    dsimp only
    rw [import_production_data_main, hacc]
    dsimp only
    rw [ite_cond_true (allOk_noErr _), foldl_applyCall_idem]
  · rw [hprod]
  · rw [import_data_store rows emptyStore acc hacc,
       import_data_store rows (applyAcc acc emptyStore) acc hacc, applyAcc_idem]
  · rw [import_data_main]
    exact fastFinish_exitCode _ _

/-- Witness for C5 at one valid row. -/
theorem c5_witness :
    accRows initAcc c5rows = some c5acc ∧
    (import_production_data false false c5rows (fun _ => false)
        (import_production_data false false c5rows (fun _ => false) emptyStore).store =
      { store := (import_production_data false false c5rows
          (fun _ => false) emptyStore).store,
        calls := (import_production_data false false c5rows
          (fun _ => false) emptyStore).calls,
        exitCode := 0 } ∧
    (import_production_data false false c5rows (fun _ => false) emptyStore).exitCode
      = 0 ∧
    (import_data false false c5rows (fun _ => false)
        (import_data false false c5rows (fun _ => false) emptyStore).store).store =
      (import_data false false c5rows (fun _ => false) emptyStore).store ∧
    (import_data false false c5rows (fun _ => false) emptyStore).exitCode = 0) :=
  ⟨by decide, c5_idempotent c5rows c5acc (by decide)⟩

/-- C6 counterexample: in fast-import, failure to open the source file (an
unrecoverable failure — the run terminates having imported nothing) is
caught, rolled back and swallowed: the process exits with status 0, not
non-zero as the claim requires. -/
theorem c6_counterexample :
    import_data false true [] (fun _ => false) emptyStore =
      { store := emptyStore, calls := [], exitCode := 0 } := by
  decide

/-- C6 amended: production-import exits non-zero after rolling back on
every unrecoverable failure (connection failure, unreadable source file,
parse error, failed insert: fourth conjunct — any non-zero exit leaves the
store unchanged beyond committed data, and conjuncts 2-3 give exit 1 with
the store untouched); fast-import exits non-zero only when the store
connection cannot be established — every failure caught inside its `try`
(including an unreadable source file) still exits 0 (first conjunct). -/
theorem c6_amended_exit_codes :
    (∀ (cf rf : Bool) (rows : List Row) (oracle : Call → Bool) (s : Store),
      (import_data cf rf rows oracle s).exitCode = if cf then 1 else 0) ∧
    (∀ (rf : Bool) (rows : List Row) (oracle : Call → Bool) (s : Store),
      import_production_data true rf rows oracle s =
        { store := s, calls := [], exitCode := 1 }) ∧
    (∀ (rows : List Row) (oracle : Call → Bool) (s : Store),
      import_production_data false true rows oracle s =
        { store := s, calls := [], exitCode := 1 }) ∧
    (∀ (cf rf : Bool) (rows : List Row) (oracle : Call → Bool) (s : Store),
      (import_production_data cf rf rows oracle s).exitCode = 0 ∨
      (import_production_data cf rf rows oracle s).store = s) := by
  refine ⟨?_, ?_, ?_, ?_⟩
  · intro cf rf rows oracle s
    cases cf
    · cases rf
      · exact fastFinish_exitCode oracle _
      · rfl
    · rfl
  · intro rf rows oracle s
    rfl
  · intro rows oracle s
    rfl
  · intro cf rf rows oracle s
    cases cf
    · cases rf
      · rw [import_production_data_main]
        cases hacc : accRows initAcc rows with
        | none => exact Or.inr rfl
        | some acc =>
          dsimp only
          by_cases hok : allOk oracle (prodCalls acc) = true
          · rw [ite_cond_true hok]
            exact Or.inl rfl
          · have hok' : allOk oracle (prodCalls acc) = false := by
              simpa using hok
            rw [ite_cond_false hok']
            exact Or.inr rfl
      · exact Or.inr rfl
    · exact Or.inr rfl

/-- C9: production-import is all-or-nothing: either the run leaves the
store exactly as it was (any exception before the single final commit rolls
the whole transaction back), or it exits 0 with every bulk insert having
succeeded and the store being the result of applying the full call
sequence. -/
theorem c9_single_transaction (cf rf : Bool) (rows : List Row)
    (oracle : Call → Bool) (s : Store) :
    (import_production_data cf rf rows oracle s).store = s ∨
    ((import_production_data cf rf rows oracle s).exitCode = 0 ∧
     allOk oracle (import_production_data cf rf rows oracle s).calls = true ∧
     (import_production_data cf rf rows oracle s).store =
       (import_production_data cf rf rows oracle s).calls.foldl applyCall s) := by
  cases cf
  · cases rf
    · rw [import_production_data_main]
      cases hacc : accRows initAcc rows with
      | none => exact Or.inl rfl
      | some acc =>
        dsimp only
        by_cases hok : allOk oracle (prodCalls acc) = true
        · rw [ite_cond_true hok]
          exact Or.inr ⟨rfl, hok, rfl⟩
        · have hok' : allOk oracle (prodCalls acc) = false := by
            simpa using hok
          rw [ite_cond_false hok']
          exact Or.inl rfl
    · exact Or.inl rfl
  · exact Or.inl rfl

set_option maxRecDepth 100000 in
/-- C7 counterexample: in production-import the batch accumulator does NOT
auto-flush at 50 — with 51 distinct batch names the batch writer is invoked
exactly once, with a single chunk of 51 records (threshold-50 flushing
would produce chunks of 50 and 1). -/
theorem c7_counterexample :
    batchCallSizes (import_production_data false false c7rows51
        (fun _ => false) emptyStore).calls = [51] ∧
    (import_production_data false false c7rows51
        (fun _ => false) emptyStore).exitCode = 0 := by
  decide

/-- C7 amended: auto-flush at a size threshold is fast-import behaviour —
teacher and link buffers flush at 1000, the batch buffer at 50 (first three
conjuncts; below the threshold nothing happens, at or above it the buffer
is written as one chunk and cleared).  Production-import never flushes
mid-stream: after the stream ends it writes teachers and links in slices of
1000 and all batches in one single call (fourth conjunct).  In both
variants, 1500 valid rows make the teacher writer run exactly twice, with
chunks of 1000 and 500 (fifth conjunct). -/
theorem c7_amended_flush_policy :
    (∀ (oracle : Call → Bool) (st : FastState),
      (st.teacher_batch.length < 1000 → flushTeachers oracle st = st) ∧
      (1000 ≤ st.teacher_batch.length →
        (flushTeachers oracle st).teacher_batch = [] ∧
        (flushTeachers oracle st).calls =
          st.calls ++ [Call.teachers st.teacher_batch])) ∧
    (∀ (oracle : Call → Bool) (st : FastState),
      (st.batch_batch.length < 50 → flushBatches oracle st = st) ∧
      (50 ≤ st.batch_batch.length →
        (flushBatches oracle st).batch_batch = [] ∧
        (flushBatches oracle st).calls =
          st.calls ++ [Call.batches st.batch_batch])) ∧
    (∀ (oracle : Call → Bool) (st : FastState),
      (st.link_batch.length < 1000 → flushLinks oracle st = st) ∧
      (1000 ≤ st.link_batch.length →
        (flushLinks oracle st).link_batch = [] ∧
        (flushLinks oracle st).calls =
          st.calls ++ [Call.links st.link_batch])) ∧
    (∀ acc : AccState,
      teacherCallSizes (prodCalls acc) = (chunks 1000 acc.teachers).map List.length ∧
      batchCallSizes (prodCalls acc) =
        (if acc.batches.isEmpty then [] else [acc.batches.length])) ∧
    (∀ (rows : List Row) (s : Store),
      (∀ r ∈ rows, isValidRow r = true) → rows.length = 1500 →
      teacherCallSizes (import_data false false rows
        (fun _ => false) s).calls = [1000, 500] ∧
      teacherCallSizes (import_production_data false false rows
        (fun _ => false) s).calls = [1000, 500]) := by
  refine ⟨?_, ?_, ?_, ?_, ?_⟩
  · intro oracle st
    refine ⟨fun h => flushTeachers_small h, fun h => ?_⟩
    rw [flushTeachers_big h]
    exact ⟨rfl, rfl⟩
  · intro oracle st
    refine ⟨fun h => flushBatches_small h, fun h => ?_⟩
    rw [flushBatches_big h]
    exact ⟨rfl, rfl⟩
  · intro oracle st
    refine ⟨fun h => flushLinks_small h, fun h => ?_⟩
    rw [flushLinks_big h]
    exact ⟨rfl, rfl⟩
  · intro acc
    exact ⟨teacherCallSizes_prodCalls acc, batchCallSizes_prodCalls acc⟩
  · intro rows s hval hlen
    refine ⟨import_data_teacher_sizes_1500 rows s hval hlen, ?_⟩
    obtain ⟨acc, hacc⟩ := accRows_some_of_ne_err rows initAcc
      fun r hr => decodeRow_ne_err_of_valid (hval r hr)
    have hteach : acc.teachers.length = 1500 := by
      have hl := accRows_teachers_len rows initAcc acc hacc
      rw [countValid_of_all_valid hval, hlen] at hl
      simpa [initAcc] using hl
    rw [import_production_data_main, hacc]
    dsimp only
    rw [ite_cond_true (allOk_noErr _)]
    dsimp only
    rw [teacherCallSizes_prodCalls, chunks_map_length_1500 acc.teachers hteach]

/-- Witness for C7 (amended) at 1500 concrete valid rows. -/
theorem c7_witness :
    c7rows1500.length = 1500 ∧
    teacherCallSizes (import_data false false c7rows1500
      (fun _ => false) emptyStore).calls = [1000, 500] ∧
    teacherCallSizes (import_production_data false false c7rows1500
      (fun _ => false) emptyStore).calls = [1000, 500] := by
  have hval : ∀ r ∈ c7rows1500, isValidRow r = true := by
    intro r hr
    rw [List.eq_of_mem_replicate hr]
    decide
  have hlen : c7rows1500.length = 1500 := by
    rw [show c7rows1500 = List.replicate 1500 c7row from rfl, List.length_replicate]
  obtain ⟨h1, h2⟩ := c7_amended_flush_policy.2.2.2.2 c7rows1500 emptyStore hval hlen
  exact ⟨hlen, h1, h2⟩
